import Mathlib

/-
Verification of the network transport of the give_up_tetris repository:
shallow embeddings of src/src/network/PairSocket.py,
src/src/network/ServerScanner.py and src/src/network/protocol.py,
with theorems settling the specified properties.
-/

set_option linter.unusedVariables false
set_option maxRecDepth 4000

/-! ## Python values and messages

A message on the wire is a Python tuple `(tag, body)` (`Message = tuple[MTI, any]`,
PairSocket.py line 20).  `PyVal` is the universe of representable bodies:
the nested scalar, sequence and mapping shapes the application sends
(for example, the `all_req` response of TetrisInterface.py lines 85-95
is a dict whose values include a nested dict of point lists). -/

/-- Representable Python payload values: integers, strings, booleans,
`None`, tuples, lists and dicts, arbitrarily nested.  A dict is its
ordered sequence of key-value entries, as pickle serializes it
(insertion order preserved). -/
inductive PyVal : Type where
  | int (n : Int)
  | str (s : String)
  | bool (b : Bool)
  | none
  | tuple (xs : List PyVal)
  | list (xs : List PyVal)
  | dict (entries : List (PyVal × PyVal))

/-- Wire message envelope: the Python tuple `(tag, body)`. -/
abbrev Msg : Type := Int × PyVal

/-! ## ServerScanner (src/src/network/ServerScanner.py)

State of a `ServerScanner` instance: the private fields `__scanning`
and `__server_list` (lines 48-49), both guarded by `__lock`. -/

/-- Scan result entry `(IP, port, name)` as collected by `ServerScanThread.run`
(ServerScanner.py line 34). -/
abbrev SResult : Type := String × Nat × PyVal

/-- State of a `ServerScanner`: `__scanning` flag and `__server_list`
(`None` while a sweep is in flight). -/
structure ScanState : Type where
  scanning : Bool
  serverList : Option (List SResult)

/-- Freshly constructed scanner (`ServerScanner.__init__`, lines 44-50):
`__scanning = False`, `__server_list = []`. -/
def initScan : ScanState := { scanning := false, serverList := some [] }

/-- Externally visible transitions of the scanner state: a call to `scan`
(lines 52-64) and the completion of the background sweep thread
(lines 74-77). -/
inductive ScanEvent : Type where
  | scanCall
  | sweepDone (l : List SResult)

/-- One scanner state transition.  `scan` returns at once if `__scanning`
is already set (lines 56-59); otherwise it sets `__scanning = True` and
`__server_list = None` under the lock (lines 60-62) before spawning the
sweep.  The finishing sweep stores the collected list and clears
`__scanning` under the lock (lines 75-77). -/
def scanStep (s : ScanState) : ScanEvent → ScanState
  | .scanCall => if s.scanning then s else { scanning := true, serverList := Option.none }
  | .sweepDone l => { scanning := false, serverList := some l }

/-- Run the scanner through a sequence of events from a given state. -/
def scanRun (s : ScanState) (es : List ScanEvent) : ScanState :=
  es.foldl scanStep s

/-- Model of `ServerScanner.get_server_list` (lines 81-91): `None` when
`__server_list` is `None`, otherwise a copy of the stored list. -/
def get_server_list (s : ScanState) : Option (List SResult) := s.serverList

/-- Model of `ServerScanner.is_scanning` (lines 93-100). -/
def is_scanning (s : ScanState) : Bool := s.scanning

/-- The scanner invariant: the stored list is `None` exactly while
`__scanning` is set. -/
def scanInv (s : ScanState) : Prop := (s.serverList = Option.none ↔ s.scanning = true)

lemma scanStep_inv (s : ScanState) (e : ScanEvent) (h : scanInv s) :
    scanInv (scanStep s e) := by
  cases e with
  | scanCall =>
    by_cases hs : s.scanning
    · simpa [scanStep, hs]
    · simp [scanStep, hs, scanInv]
  | sweepDone l => simp [scanStep, scanInv]

lemma scanRun_inv (es : List ScanEvent) (s : ScanState) (h : scanInv s) :
    scanInv (scanRun s es) := by
  induction es generalizing s with
  | nil => simpa [scanRun]
  | cons e es ih =>
    have h1 := scanStep_inv s e h
    simpa [scanRun, List.foldl_cons] using ih (scanStep s e) h1

/-! ## Scan sweep address enumeration (ServerScanner.py lines 66-73)

The sweep loops `for i in range(2, (1 << 32) - 1 & ~mask)` over each
interface pair `(prefix, mask)` and probes `prefix + i`. -/

/-- Loop bound of the sweep: Python's `(1 << 32) - 1 & ~mask`
(ServerScanner.py line 69), the 32-bit complement of the netmask. -/
def hostLimit (mask : Nat) : Nat := (2 ^ 32 - 1) ^^^ mask

/-- Offsets probed within one subnet: Python's `range(2, hostLimit mask)`,
that is the list `[2, 3, ..., hostLimit mask - 1]`. -/
def scanOffsets (mask : Nat) : List Nat := List.range' 2 (hostLimit mask - 2)

/-- Addresses probed for one interface pair `(base, mask)`:
`ip = prefix + i` (ServerScanner.py line 70). -/
def scanAddrs (base mask : Nat) : List Nat := (scanOffsets mask).map (fun i => base + i)

/-- Modelled from the spec: a host address of the subnet `(base, mask)` is
every address in the subnet that can belong to a host, i.e. `base + i`
for an offset `i` strictly between the network address (offset 0) and
the broadcast address (offset `hostLimit mask`). -/
def isHostAddr (base mask a : Nat) : Prop :=
  ∃ i, 1 ≤ i ∧ i < hostLimit mask ∧ a = base + i

instance (base mask a : Nat) : Decidable (isHostAddr base mask a) := by
  unfold isHostAddr
  by_cases h : 1 ≤ a - base ∧ a - base < hostLimit mask ∧ a = base + (a - base)
  · exact .isTrue ⟨a - base, h⟩
  · refine .isFalse ?_
    rintro ⟨i, h1, h2, rfl⟩
    exact h (by simpa using ⟨h1, h2⟩)

lemma mem_scanOffsets (mask i : Nat) :
    i ∈ scanOffsets mask ↔ 2 ≤ i ∧ i < hostLimit mask := by
  unfold scanOffsets
  rw [List.mem_range'_1]
  omega

lemma mem_scanAddrs (base mask a : Nat) :
    a ∈ scanAddrs base mask ↔ ∃ i, 2 ≤ i ∧ i < hostLimit mask ∧ a = base + i := by
  unfold scanAddrs
  simp only [List.mem_map]
  constructor
  · rintro ⟨i, hi, rfl⟩
    rcases (mem_scanOffsets mask i).1 hi with ⟨h1, h2⟩
    exact ⟨i, h1, h2, rfl⟩
  · rintro ⟨i, h1, h2, rfl⟩
    exact ⟨i, (mem_scanOffsets mask i).2 ⟨h1, h2⟩, rfl⟩

lemma scanAddrs_nodup (base mask : Nat) : (scanAddrs base mask).Nodup := by
  unfold scanAddrs scanOffsets
  exact List.Nodup.map (fun a b h => by omega) (List.nodup_range' 2 (hostLimit mask - 2))

/-! ## Application protocol (src/src/network/protocol.py)

`TetrisMessageType` is an `IntEnum` whose members are assigned by
`auto()`, hence the consecutive values 1..24 in declaration order. -/

/-- Members of `TetrisMessageType` (protocol.py lines 9-41) with their
`auto()` values. -/
def tetrisMessageType : List (String × Int) :=
  [("chat", 1), ("chat_r", 2), ("ready", 3), ("ready_r", 4),
   ("busy", 5), ("busy_r", 6), ("mdchngd", 7), ("mdchngd_r", 8),
   ("start", 9), ("start_r", 10), ("ended", 11), ("ended_r", 12),
   ("map_req", 13), ("map", 14), ("score_req", 15), ("score", 16),
   ("queue_req", 17), ("queue", 18), ("pos_req", 19), ("pos", 20),
   ("all_req", 21), ("all", 22), ("ctrlkey", 23), ("ctrlkey_r", 24)]

/-- Reserved transport tag of the introduce envelope
(PairSocket.py line 39, line 43). -/
def introduceTag : Int := -1

/-- Reserved transport tag of the introduce-reply envelope
(PairSocket.py line 37). -/
def introduceReplyTag : Int := -2

/-! ## PairSocket (src/src/network/PairSocket.py)

State of a `PairSocket` instance: `_socket` (modelled by whether a live
connection is owned), `_opposite_name`, `_handler_map` restricted to the
application-enrolled handlers (the synthetic `introduce` entry at tag -1,
installed by `__init__` line 39, is treated separately because it mutates
the instance), `__response`, the dispatched-but-not-yet-run handler tasks
(`send_thread` threads, lines 58-63), and the envelopes sent so far on
the current connection. -/

/-- State of one `PairSocket` over the lifetime of one connection. -/
structure PSState : Type where
  sock : Bool
  opposite : Option PyVal
  handlers : Int → Option (Msg → Msg)
  resp : Int → Option Msg
  pending : List Msg
  sent : List Msg

/-- The introduce envelope `(-1, self._name)`, the first packet written by
`message_handler` (PairSocket.py line 43). -/
def introMsg (name : String) : Msg := (introduceTag, PyVal.str name)

/-- The introduce-reply envelope `(-2, self._name)` returned by the
`introduce` handler (PairSocket.py line 37). -/
def introReply (name : String) : Msg := (introduceReplyTag, PyVal.str name)

/-- Whether an inbound tag has an entry in `_handler_map`
(PairSocket.py line 52): the synthetic `introduce` entry at -1 plus any
application handler enrolled for the tag. -/
def hasHandler (s : PSState) (t : Int) : Bool :=
  t == introduceTag || (s.handlers t).isSome

/-- Response-table write of the receive loop (PairSocket.py line 55):
`self.__response[msg[0]] = msg`, overwriting any unclaimed entry. -/
def storeResp (resp : Int → Option Msg) (m : Msg) : Int → Option Msg :=
  fun t => if t = m.1 then some m else resp t

/-- Claim of a response by `request` (PairSocket.py lines 119-120):
`self.__response.pop(response_type)`; returns the stored envelope and the
table with the entry removed. -/
def claimResp (s : PSState) (t : Int) : Option Msg × PSState :=
  (s.resp t, { s with resp := fun u => if u = t then Option.none else s.resp u })

/-- Events interleaved against one `PairSocket`: the receive loop reads an
envelope (`recv`, lines 46-55), a dispatched `send_thread` task runs
(`runTask`, lines 58-63), the connection fails or reaches end-of-stream
(`fail`, lines 47-48 and 64-72), a waiting `request` pops a response
(`claim`, lines 119-120), and the application registers a handler
(`enroll`, lines 124-131). -/
inductive PSEvent : Type where
  | recv (m : Msg)
  | runTask
  | fail
  | claim (t : Int)
  | enroll (t : Int) (h : Msg → Msg)

/-- One transition of the `PairSocket` state.

`recv m`: if `msg[0] in self._handler_map` the handler is dispatched on
its own thread (queued in `pending`), else the envelope is stored in
`__response` (lines 50-55).

`runTask`: the oldest dispatched task runs.  For tag -1 this is
`introduce` (lines 35-38): it assigns `self._opposite_name = msg[1]`
(with no lock, even if the connection has meanwhile been torn down) and
then `send_thread` sends the returned `(-2, self._name)`; the send only
happens while a socket is present (otherwise `self._socket.send` raises
in the daemon thread and nothing is sent).  For an enrolled tag the
handler's returned envelope is sent under the same condition.

`fail`: the `finally` cleanup (lines 66-70) closes the socket and clears
`_socket` and `_opposite_name` together under the lock.

`claim t`: a `request` call pops `__response[t]` (lines 119-120).

`enroll t h`: `_handler_map[t] = h` (line 131). -/
def psStep (name : String) (s : PSState) : PSEvent → PSState
  | .recv m =>
      if s.sock then
        if hasHandler s m.1 then { s with pending := s.pending ++ [m] }
        else { s with resp := storeResp s.resp m }
      else s
  | .runTask =>
      match s.pending with
      | [] => s
      | m :: rest =>
          if m.1 = introduceTag then
            { s with pending := rest,
                     opposite := some m.2,
                     sent := if s.sock then s.sent ++ [introReply name] else s.sent }
          else
            match s.handlers m.1 with
            | some h =>
                { s with pending := rest,
                         sent := if s.sock then s.sent ++ [h m] else s.sent }
            | Option.none => { s with pending := rest }
  | .fail => if s.sock then { s with sock := false, opposite := Option.none } else s
  | .claim t => (claimResp s t).2
  | .enroll t h => { s with handlers := fun u => if u = t then some h else s.handlers u }

/-- Run the socket through a sequence of events. -/
def psRun (name : String) (s : PSState) (es : List PSEvent) : PSState :=
  es.foldl (psStep name) s

/-- State at the start of `message_handler` on a fresh connection
(PairSocket.py lines 41-43): a live socket, no peer name, no pending
responses or tasks, and `(-1, self._name)` already written as the first
outbound envelope. -/
def initConn (name : String) (handlers : Int → Option (Msg → Msg)) : PSState :=
  { sock := true, opposite := Option.none, handlers := handlers,
    resp := fun _ => Option.none, pending := [], sent := [introMsg name] }

/-- Model of `PairSocket.get_opposite` (PairSocket.py lines 93-98). -/
def get_opposite (s : PSState) : Option PyVal := s.opposite

lemma psStep_sent_extends (name : String) (s : PSState) (e : PSEvent) :
    ∃ l, (psStep name s e).sent = s.sent ++ l := by
  cases e with
  | recv m =>
      by_cases hs : s.sock
      · by_cases hh : hasHandler s m.1
        · exact ⟨[], by simp [psStep, hs, hh]⟩
        · exact ⟨[], by simp [psStep, hs, hh]⟩
      · exact ⟨[], by simp [psStep, hs]⟩
  | runTask =>
      match hp : s.pending with
      | [] => exact ⟨[], by simp [psStep, hp]⟩
      | m :: rest =>
          by_cases hm : m.1 = introduceTag
          · by_cases hs : s.sock
            · exact ⟨[introReply name], by simp [psStep, hp, hm, hs]⟩
            · exact ⟨[], by simp [psStep, hp, hm, hs]⟩
          · match hh : s.handlers m.1 with
            | some h =>
                by_cases hs : s.sock
                · exact ⟨[h m], by simp [psStep, hp, hm, hh, hs]⟩
                · exact ⟨[], by simp [psStep, hp, hm, hh, hs]⟩
            | Option.none => exact ⟨[], by simp [psStep, hp, hm, hh]⟩
  | fail =>
      by_cases hs : s.sock
      · exact ⟨[], by simp [psStep, hs]⟩
      · exact ⟨[], by simp [psStep, hs]⟩
  | claim t => exact ⟨[], by simp [psStep, claimResp]⟩
  | enroll t h => exact ⟨[], by simp [psStep]⟩

lemma psRun_sent_extends (name : String) (es : List PSEvent) (s : PSState) :
    ∃ l, (psRun name s es).sent = s.sent ++ l := by
  induction es generalizing s with
  | nil => exact ⟨[], by simp [psRun]⟩
  | cons e es ih =>
      rcases ih (psStep name s e) with ⟨l2, h2⟩
      rcases psStep_sent_extends name s e with ⟨l1, h1⟩
      refine ⟨l1 ++ l2, ?_⟩
      rw [psRun, List.foldl_cons] at *
      rw [h2, h1, List.append_assoc]

/-! ## Wire codec

The Peer Socket serializes envelopes with pickle `dumps` and `loads`
(PairSocket.py lines 4, 43, 49, 61, 116); pickle's implementation lives
outside this repository.  Following the spec's contract — a
deterministic, symmetric, self-describing serialization of arbitrarily
nested payloads — the codec is modelled concretely over `PyVal`. -/

mutual

/-- Modelled from the spec: serialization of one value into a
self-describing symbol stream (the missing pickle encoder).  Each value
starts with a shape symbol below 9; sequences are closed by the end
symbol 9. -/
def encVal : PyVal → List Nat
  | .int n => if n < 0 then [0, 1, n.natAbs] else [0, 0, n.natAbs]
  | .str s => 1 :: s.length :: s.data.map Char.toNat
  | .bool b => [2, if b then 1 else 0]
  | .none => [3]
  | .tuple xs => 4 :: encSeq xs
  | .list xs => 5 :: encSeq xs
  | .dict ps => 6 :: encPairs ps

/-- Modelled from the spec: serialization of a sequence of values,
terminated by the end symbol 9. -/
def encSeq : List PyVal → List Nat
  | [] => [9]
  | v :: vs => encVal v ++ encSeq vs

/-- Modelled from the spec: serialization of the ordered key-value
entries of a mapping, terminated by the end symbol 9. -/
def encPairs : List (PyVal × PyVal) → List Nat
  | [] => [9]
  | p :: ps => encVal p.1 ++ encVal p.2 ++ encPairs ps

end

mutual

/-- Modelled from the spec: deserialization of one value from the front
of a symbol stream (the missing pickle decoder); returns the value and
the unconsumed remainder, or `Option.none` on malformed input or
exhausted fuel. -/
def decVal : Nat → List Nat → Option (PyVal × List Nat)
  | 0, _ => Option.none
  | _ + 1, 0 :: sgn :: k :: rest =>
      some (.int (if sgn = 1 then -(k : Int) else (k : Int)), rest)
  | _ + 1, 1 :: len :: rest =>
      if len ≤ rest.length then
        some (.str (String.mk ((rest.take len).map Char.ofNat)), rest.drop len)
      else Option.none
  | _ + 1, 2 :: b :: rest => some (.bool (b = 1), rest)
  | _ + 1, 3 :: rest => some (.none, rest)
  | fuel + 1, 4 :: rest =>
      match decSeq fuel rest with
      | some (xs, r) => some (.tuple xs, r)
      | Option.none => Option.none
  | fuel + 1, 5 :: rest =>
      match decSeq fuel rest with
      | some (xs, r) => some (.list xs, r)
      | Option.none => Option.none
  | fuel + 1, 6 :: rest =>
      match decPairs fuel rest with
      | some (ps, r) => some (.dict ps, r)
      | Option.none => Option.none
  | _ + 1, _ => Option.none

/-- Modelled from the spec: deserialization of a sequence of values up to
the end symbol 9. -/
def decSeq : Nat → List Nat → Option (List PyVal × List Nat)
  | 0, _ => Option.none
  | fuel + 1, input =>
      if input.head? = some 9 then some ([], input.tail)
      else
        match decVal fuel input with
        | some (v, r) =>
            match decSeq fuel r with
            | some (vs, r2) => some (v :: vs, r2)
            | Option.none => Option.none
        | Option.none => Option.none

/-- Modelled from the spec: deserialization of a mapping's key-value
entries up to the end symbol 9. -/
def decPairs : Nat → List Nat → Option (List (PyVal × PyVal) × List Nat)
  | 0, _ => Option.none
  | fuel + 1, input =>
      if input.head? = some 9 then some ([], input.tail)
      else
        match decVal fuel input with
        | some (k, r1) =>
            match decVal fuel r1 with
            | some (v, r2) =>
                match decPairs fuel r2 with
                | some (ps, r3) => some ((k, v) :: ps, r3)
                | Option.none => Option.none
            | Option.none => Option.none
        | Option.none => Option.none

end

lemma encVal_length_pos (v : PyVal) : 1 ≤ (encVal v).length := by
  cases v with
  | int n => by_cases h : n < 0 <;> simp [encVal, h]
  | str s => simp [encVal]
  | bool b => simp [encVal]
  | none => simp [encVal]
  | tuple xs => simp [encVal]
  | list xs => simp [encVal]
  | dict ps => simp [encVal]

lemma encSeq_length_pos (xs : List PyVal) : 1 ≤ (encSeq xs).length := by
  cases xs with
  | nil => simp [encSeq]
  | cons v vs =>
      have := encVal_length_pos v
      simp [encSeq]
      omega

lemma encPairs_length_pos (ps : List (PyVal × PyVal)) : 1 ≤ (encPairs ps).length := by
  cases ps with
  | nil => simp [encPairs]
  | cons p rest =>
      have := encVal_length_pos p.1
      simp [encPairs]
      omega

lemma encVal_append_head (v : PyVal) (l : List Nat) :
    (encVal v ++ l).head? ≠ some 9 := by
  cases v with
  | int n => by_cases h : n < 0 <;> simp [encVal, h]
  | str s => simp [encVal]
  | bool b => simp [encVal]
  | none => simp [encVal]
  | tuple xs => simp [encVal]
  | list xs => simp [encVal]
  | dict ps => simp [encVal]

lemma decVal_encVal (fuel : Nat) :
    (∀ v rest, (encVal v).length ≤ fuel →
        decVal fuel (encVal v ++ rest) = some (v, rest)) ∧
    (∀ xs rest, (encSeq xs).length ≤ fuel →
        decSeq fuel (encSeq xs ++ rest) = some (xs, rest)) ∧
    (∀ ps rest, (encPairs ps).length ≤ fuel →
        decPairs fuel (encPairs ps ++ rest) = some (ps, rest)) := by
  induction fuel using Nat.strong_induction_on with
  | _ fuel ih =>
    match fuel with
    | 0 =>
        refine ⟨?_, ?_, ?_⟩
        · intro v rest hw
          exact absurd hw (by have := encVal_length_pos v; omega)
        · intro xs rest hw
          exact absurd hw (by have := encSeq_length_pos xs; omega)
        · intro ps rest hw
          exact absurd hw (by have := encPairs_length_pos ps; omega)
    | f + 1 =>
        refine ⟨?_, ?_, ?_⟩
        · intro v rest hw
          cases v with
          | int n =>
              by_cases h : n < 0
              · have e1 : encVal (PyVal.int n) ++ rest = 0 :: 1 :: n.natAbs :: rest := by
                  simp [encVal, h]
                have hn : -((n.natAbs : Int)) = n := by omega
                rw [e1]
                simp only [decVal, if_pos rfl, hn, if_true]
              · have e1 : encVal (PyVal.int n) ++ rest = 0 :: 0 :: n.natAbs :: rest := by
                  simp [encVal, h]
                have hn : ((n.natAbs : Int)) = n := by omega
                rw [e1]
                simp only [decVal]
                rw [if_neg (by omega), hn]
          | str s =>
              have e1 : encVal (PyVal.str s) ++ rest
                  = 1 :: s.length :: (s.data.map Char.toNat ++ rest) := by
                rw [encVal]
                simp
              have hlen : (s.data.map Char.toNat).length = s.length := by
                rw [List.length_map, String.length]
              rw [e1]
              simp only [decVal]
              rw [if_pos (by rw [List.length_append, hlen]; omega)]
              rw [List.take_append_of_le_length (by rw [hlen]),
                  List.drop_append_of_le_length (by rw [hlen])]
              rw [show List.take s.length (List.map Char.toNat s.data)
                    = List.map Char.toNat s.data from by rw [← hlen, List.take_length],
                  show List.drop s.length (List.map Char.toNat s.data)
                    = ([] : List Nat) from by rw [← hlen, List.drop_length]]
              simp only [List.map_map, List.append_nil]
              have hco : (Char.ofNat ∘ Char.toNat) = fun c => c :=
                funext fun c => Char.ofNat_toNat c
              rw [hco, List.map_id']
              rfl
          | bool b =>
              cases b
              · have e1 : encVal (PyVal.bool false) ++ rest = 2 :: 0 :: rest := by
                  rw [encVal]
                  simp
                rw [e1]
                simp only [decVal]
                norm_num
              · have e1 : encVal (PyVal.bool true) ++ rest = 2 :: 1 :: rest := by
                  rw [encVal]
                  simp
                rw [e1]
                simp only [decVal]
                norm_num
          | none =>
              have e1 : encVal PyVal.none ++ rest = 3 :: rest := by
                rw [encVal]
                simp
              rw [e1]
              simp only [decVal]
          | tuple xs =>
              have hx : (encSeq xs).length ≤ f := by
                rw [encVal] at hw
                simp at hw
                omega
              have hs := (ih f (Nat.lt_succ_self f)).2.1 xs rest hx
              have e1 : encVal (PyVal.tuple xs) ++ rest = 4 :: (encSeq xs ++ rest) := by
                rw [encVal]
                simp
              rw [e1]
              simp only [decVal]
              rw [hs]
          | list xs =>
              have hx : (encSeq xs).length ≤ f := by
                rw [encVal] at hw
                simp at hw
                omega
              have hs := (ih f (Nat.lt_succ_self f)).2.1 xs rest hx
              have e1 : encVal (PyVal.list xs) ++ rest = 5 :: (encSeq xs ++ rest) := by
                rw [encVal]
                simp
              rw [e1]
              simp only [decVal]
              rw [hs]
          | dict ps =>
              have hx : (encPairs ps).length ≤ f := by
                rw [encVal] at hw
                simp at hw
                omega
              have hs := (ih f (Nat.lt_succ_self f)).2.2 ps rest hx
              have e1 : encVal (PyVal.dict ps) ++ rest = 6 :: (encPairs ps ++ rest) := by
                rw [encVal]
                simp
              rw [e1]
              simp only [decVal]
              rw [hs]
        · intro xs rest hw
          cases xs with
          | nil => simp [encSeq, decSeq]
          | cons v vs =>
              have h1 : (encVal v).length ≤ f := by
                have := encSeq_length_pos vs
                simp [encSeq] at hw
                omega
              have h2 : (encSeq vs).length ≤ f := by
                have := encVal_length_pos v
                simp [encSeq] at hw
                omega
              have hv := (ih f (Nat.lt_succ_self f)).1 v (encSeq vs ++ rest) h1
              have hs := (ih f (Nat.lt_succ_self f)).2.1 vs rest h2
              have harr : encSeq (v :: vs) ++ rest = encVal v ++ (encSeq vs ++ rest) := by
                simp [encSeq]
              rw [harr]
              simp only [decSeq]
              rw [if_neg (encVal_append_head v _), hv]
              simp [hs]
        · intro ps rest hw
          cases ps with
          | nil => simp [encPairs, decPairs]
          | cons p rest2 =>
              obtain ⟨k, v⟩ := p
              have hwl : (encVal k).length + ((encVal v).length + (encPairs rest2).length)
                  ≤ f + 1 := by
                simpa [encPairs] using hw
              have hk : (encVal k).length ≤ f := by
                have := encVal_length_pos v
                omega
              have hv : (encVal v).length ≤ f := by
                have := encVal_length_pos k
                omega
              have hp : (encPairs rest2).length ≤ f := by
                have := encVal_length_pos k
                omega
              have h1 := (ih f (Nat.lt_succ_self f)).1 k
                (encVal v ++ (encPairs rest2 ++ rest)) hk
              have h2 := (ih f (Nat.lt_succ_self f)).1 v (encPairs rest2 ++ rest) hv
              have h3 := (ih f (Nat.lt_succ_self f)).2.2 rest2 rest hp
              have harr : encPairs ((k, v) :: rest2) ++ rest
                  = encVal k ++ (encVal v ++ (encPairs rest2 ++ rest)) := by
                simp [encPairs]
              rw [harr]
              simp only [decPairs]
              rw [if_neg (encVal_append_head k _), h1]
              simp [h2, h3]

/-- Modelled from the spec: pickle `dumps` of the envelope tuple
`(tag, body)` (PairSocket.py lines 43, 61, 116). -/
def dumps (m : Msg) : List Nat := encVal (.tuple [.int m.1, m.2])

/-- Modelled from the spec: pickle `loads` of one received packet
(PairSocket.py line 49); malformed input yields `Option.none`. -/
def loads (bs : List Nat) : Option Msg :=
  match decVal bs.length bs with
  | some (.tuple [.int t, b], []) => some (t, b)
  | _ => Option.none

/-! ## PairSocket.request (PairSocket.py lines 107-122)

The call sends the message under the lock and then busy-polls
`self.__response` for the expected tag.  `tbl n` is the content of
`__response[response_type]` at the n-th poll iteration, as produced by
the concurrently running receive loop. -/

/-- Poll loop of `request` (lines 117-120): at each iteration, return the
stored envelope for the expected tag if present, else iterate.  The
result is the claimed envelope if one appears within `fuel` iterations,
and `Option.none` if the loop is still running after `fuel` iterations.
The loop body touches only the `__response` dictionary, so no exception
can interrupt it. -/
def requestPoll (tbl : Nat → Option Msg) : Nat → Nat → Option Msg
  | _, 0 => Option.none
  | k, fuel + 1 =>
      match tbl k with
      | some m => some m
      | Option.none => requestPoll tbl (k + 1) fuel

/-- Model of `PairSocket.request` (lines 107-122).  `connPresent` is
whether `self._socket` is non-None at the call and the initial `send`
succeeds; when it is false the send raises (`AttributeError` on a None
socket, `OSError` on a dead one), the exception is caught at lines
121-122 and the call returns Python `None` (`some Option.none`).
Otherwise the call enters the poll loop: `some (some m)` means the call
returned envelope `m` within `fuel` polls, `Option.none` means it has
not returned yet. -/
def request (connPresent : Bool) (tbl : Nat → Option Msg) (fuel : Nat) :
    Option (Option Msg) :=
  if connPresent then (requestPoll tbl 0 fuel).map some
  else some Option.none

lemma requestPoll_of_none (tbl : Nat → Option Msg) (h : ∀ k, tbl k = Option.none) :
    ∀ fuel k, requestPoll tbl k fuel = Option.none := by
  intro fuel
  induction fuel with
  | zero => intro k; rfl
  | succ f ihf =>
      intro k
      simp only [requestPoll, h k]
      exact ihf (k + 1)

lemma requestPoll_finds (tbl : Nat → Option Msg) :
    ∀ d k m, (∀ j, k ≤ j → j < k + d → tbl j = Option.none) → tbl (k + d) = some m →
      requestPoll tbl k (d + 1) = some m := by
  intro d
  induction d with
  | zero =>
      intro k m _ hm
      simp only [requestPoll]
      rw [show k + 0 = k from rfl] at hm
      rw [hm]
  | succ d ihd =>
      intro k m hnone hm
      have hk : tbl k = Option.none := hnone k (Nat.le_refl k) (by omega)
      simp only [requestPoll, hk]
      have := ihd (k + 1) m (fun j h1 h2 => hnone j (by omega) (by omega))
        (by rw [show k + 1 + d = k + (d + 1) from by omega]; exact hm)
      exact this

/-! ## PairClientSocket and PairServerSocket start (PairSocket.py lines 142-222) -/

/-- State of a `PairClientSocket` relevant to `start`: the private
`__connecting` flag, whether `_socket` is non-None, and
`_opposite_name`. -/
structure ClientState : Type where
  connecting : Bool
  sock : Bool
  opposite : Option PyVal

/-- Freshly constructed `PairClientSocket` (lines 143-148). -/
def initClient : ClientState :=
  { connecting := false, sock := false, opposite := Option.none }

/-- Model of `PairClientSocket.start` (lines 150-180): it reads
`__connecting`, ors it with `self.get_opposite() is not None`
(lines 151-153) and returns without doing anything if the result is true
(lines 154-155); otherwise it sets `__connecting = True` and spawns a
connection attempt.  The boolean result records whether an attempt was
spawned. -/
def clientStart (s : ClientState) : ClientState × Bool :=
  if s.connecting || s.opposite.isSome then (s, false)
  else ({ s with connecting := true }, true)

/-- Successful completion of the spawned `connect` thread
(lines 167-171): `__connecting = False`, `_socket = sock`; the peer name
is still unset until the handshake envelope arrives. -/
def clientConnected (s : ClientState) : ClientState :=
  { s with connecting := false, sock := true }

/-- Model of `PairServerSocket.start` (lines 199-207): returns without
doing anything if `__started` is set, else sets it and spawns the accept
loop.  The pair is the new `__started` flag and whether an accept loop
was spawned. -/
def serverStart (started : Bool) : Bool × Bool :=
  if started then (started, false) else (true, true)

/-! ## Claims -/

/-- C7: for every ServerScanner, `get_server_list()` returns None exactly
while a scan is in flight (`is_scanning()` is true) and otherwise
returns a copy of the most recently completed scan's result list; a new
`scan` call invalidates the previous result set immediately (the stored
list is set to None before the new sweep finishes). -/
theorem C7_scanner_snapshot :
    (∀ es : List ScanEvent,
        (get_server_list (scanRun initScan es) = Option.none ↔
          is_scanning (scanRun initScan es) = true)) ∧
    (∀ s : ScanState, s.scanning = false →
        scanStep s ScanEvent.scanCall
          = { scanning := true, serverList := Option.none }) ∧
    (∀ (s : ScanState) (l : List SResult),
        get_server_list (scanStep s (ScanEvent.sweepDone l)) = some l) := by
  refine ⟨?_, ?_, ?_⟩
  · intro es
    have h := scanRun_inv es initScan (by simp [scanInv, initScan])
    simpa [scanInv, get_server_list, is_scanning] using h
  · intro s hs
    simp [scanStep, hs]
  · intro s l
    simp [scanStep, get_server_list]

/-- Witness for C7: the invalidation clause applied to the freshly
constructed scanner. -/
theorem C7_witness :
    initScan.scanning = false ∧
    scanStep initScan ScanEvent.scanCall
      = { scanning := true, serverList := Option.none } :=
  ⟨rfl, C7_scanner_snapshot.2.1 initScan rfl⟩

/-- C10: for every freshly constructed ServerScanner, before `scan` has
ever been called, `get_server_list()` returns an empty list (not None)
and `is_scanning()` returns False. -/
theorem C10_fresh_scanner :
    get_server_list initScan = some [] ∧ is_scanning initScan = false :=
  ⟨rfl, rfl⟩

/-- C8 counterexample: on the /24 subnet with netmask 255.255.255.0
(4294967040) and network address 192.168.0.0 (3232235520), the address
192.168.0.1 (3232235521) can belong to a host but is never probed: the
sweep loop starts at offset 2 and skips offset 1. -/
theorem C8_counterexample :
    isHostAddr 3232235520 4294967040 3232235521 ∧
    3232235521 ∉ scanAddrs 3232235520 4294967040 := by
  constructor
  · exact ⟨1, by decide, by decide, by decide⟩
  · intro hmem
    rcases (mem_scanAddrs _ _ _).1 hmem with ⟨i, h2, hlt, heq⟩
    omega

/-- C8 amended: a `scan(port)` call spawns one connection-attempt probe
per interface pair `(prefix, mask)` for exactly the addresses
`prefix + i` with `2 ≤ i < hostLimit mask`: every host address of the
subnet except `prefix + 1` (the loop starts at offset 2), each probed
exactly once. -/
theorem C8_probe_set (base mask : Nat) :
    (scanAddrs base mask).Nodup ∧
    (∀ a, a ∈ scanAddrs base mask ↔ (isHostAddr base mask a ∧ a ≠ base + 1)) := by
  refine ⟨scanAddrs_nodup base mask, ?_⟩
  intro a
  rw [mem_scanAddrs]
  constructor
  · rintro ⟨i, h2, hlt, rfl⟩
    exact ⟨⟨i, by omega, hlt, rfl⟩, by omega⟩
  · rintro ⟨⟨i, h1, hlt, rfl⟩, hne⟩
    exact ⟨i, by omega, hlt, rfl⟩

/-- C9: every member of `TetrisMessageType` has a value distinct from the
reserved transport tags -1 and -2; all values are positive. -/
theorem C9_app_tags_reserved :
    ∀ p ∈ tetrisMessageType, p.2 ≠ introduceTag ∧ p.2 ≠ introduceReplyTag ∧ 0 < p.2 := by
  decide

/-- Witness for C9: the first member, `chat = 1`. -/
theorem C9_witness :
    ("chat", (1 : Int)) ∈ tetrisMessageType ∧
    ((1 : Int) ≠ introduceTag ∧ (1 : Int) ≠ introduceReplyTag ∧ (0 : Int) < 1) :=
  ⟨by decide, C9_app_tags_reserved ("chat", 1) (by decide)⟩

lemma psStep_recv_store (name : String) (s : PSState) (m : Msg)
    (hs : s.sock = true) (hh : hasHandler s m.1 = false) :
    psStep name s (PSEvent.recv m) = { s with resp := storeResp s.resp m } := by
  simp [psStep, hs, hh]

/-- C2: the pending-response table retains at most one unclaimed response
per tag: a second response envelope tagged `t` arriving at the receive
loop before the first is claimed silently overwrites it; a subsequent
request waiting on `t` receives only the most recently arrived response
and removes it, so each stored response is delivered to at most one
request call. -/
theorem C2_pending_table (name : String) (s : PSState) (t : Int) (m1 m2 : Msg)
    (hs : s.sock = true) (hh : hasHandler s t = false)
    (h1 : m1.1 = t) (h2 : m2.1 = t) :
    (psRun name s [PSEvent.recv m1, PSEvent.recv m2]).resp t = some m2 ∧
    (claimResp (psRun name s [PSEvent.recv m1, PSEvent.recv m2]) t).1 = some m2 ∧
    (claimResp (claimResp (psRun name s [PSEvent.recv m1, PSEvent.recv m2]) t).2 t).1
      = Option.none := by
  have hh1 : hasHandler s m1.1 = false := by rw [h1]; exact hh
  have e1 : psStep name s (PSEvent.recv m1) = { s with resp := storeResp s.resp m1 } :=
    psStep_recv_store name s m1 hs hh1
  have hh2 : hasHandler { s with resp := storeResp s.resp m1 } m2.1 = false := by
    rw [h2]
    simpa [hasHandler] using hh
  have e2 : psStep name { s with resp := storeResp s.resp m1 } (PSEvent.recv m2)
      = { s with resp := storeResp (storeResp s.resp m1) m2 } :=
    psStep_recv_store name { s with resp := storeResp s.resp m1 } m2 hs hh2
  have erun : psRun name s [PSEvent.recv m1, PSEvent.recv m2]
      = { s with resp := storeResp (storeResp s.resp m1) m2 } := by
    simp [psRun, e1, e2]
  rw [erun]
  refine ⟨?_, ?_, ?_⟩
  · simp [storeResp, h2]
  · simp [claimResp, storeResp, h2]
  · simp [claimResp]

/-- Witness for C2: two responses tagged 7 arrive on a fresh connection
with no handler enrolled for 7; the claimed response is the second. -/
theorem C2_witness :
    (initConn "a" (fun _ => Option.none)).sock = true ∧
    hasHandler (initConn "a" (fun _ => Option.none)) 7 = false ∧
    (claimResp (psRun "a" (initConn "a" (fun _ => Option.none))
        [PSEvent.recv (7, PyVal.int 1), PSEvent.recv (7, PyVal.int 2)]) 7).1
      = some ((7 : Int), PyVal.int 2) :=
  ⟨rfl, rfl,
    (C2_pending_table "a" (initConn "a" (fun _ => Option.none)) 7
      (7, PyVal.int 1) (7, PyVal.int 2) rfl rfl rfl rfl).2.1⟩

/-- C4: on every newly established connection the receive loop sends
`(-1, localName)` as its very first outbound envelope (and it stays the
first element of the send trace forever); on receiving an envelope
tagged -1 the introduce handler stores the received name as the peer
name, subsequently returned by `get_opposite`, and replies with the
envelope `(-2, localName)`. -/
theorem C4_handshake :
    (∀ (name : String) (handlers : Int → Option (Msg → Msg)) (es : List PSEvent),
        (psRun name (initConn name handlers) es).sent.head? = some (introMsg name)) ∧
    (∀ (name : String) (s : PSState) (p : PyVal),
        s.sock = true → s.pending = [] →
        get_opposite (psRun name s [PSEvent.recv (introduceTag, p), PSEvent.runTask])
            = some p ∧
        (psRun name s [PSEvent.recv (introduceTag, p), PSEvent.runTask]).sent
            = s.sent ++ [introReply name]) := by
  constructor
  · intro name handlers es
    rcases psRun_sent_extends name es (initConn name handlers) with ⟨l, hl⟩
    rw [hl]
    simp [initConn]
  · intro name s p hs hp
    have e1 : psStep name s (PSEvent.recv (introduceTag, p))
        = { s with pending := [(introduceTag, p)] } := by
      simp [psStep, hs, hasHandler, hp]
    have e2 : psStep name { s with pending := [(introduceTag, p)] } PSEvent.runTask
        = { s with pending := [], opposite := some p,
                   sent := s.sent ++ [introReply name] } := by
      simp [psStep, hs]
    constructor
    · simp [psRun, e1, e2, get_opposite]
    · simp [psRun, e1, e2]

/-- Witness for C4: the introduce envelope arriving on a fresh
connection. -/
theorem C4_witness :
    (initConn "me" (fun _ => Option.none)).sock = true ∧
    (initConn "me" (fun _ => Option.none)).pending = [] ∧
    get_opposite (psRun "me" (initConn "me" (fun _ => Option.none))
        [PSEvent.recv (introduceTag, PyVal.str "peer"), PSEvent.runTask])
      = some (PyVal.str "peer") :=
  ⟨rfl, rfl, (C4_handshake.2 "me" (initConn "me" (fun _ => Option.none))
      (PyVal.str "peer") rfl rfl).1⟩

/-- C5 counterexample: a reachable state violating the claimed invariant.
On a fresh connection an introduce envelope is dispatched to its handler
thread, the connection then fails (the cleanup clears both `_socket` and
`_opposite_name`), and afterwards the already dispatched handler thread
runs `self._opposite_name = msg[1]` without the lock: the resulting
state has a peer name while the connection is null. -/
theorem C5_counterexample :
    (psRun "me" (initConn "me" (fun _ => Option.none))
        [PSEvent.recv (introduceTag, PyVal.str "peer"), PSEvent.fail,
         PSEvent.runTask]).sock = false ∧
    (psRun "me" (initConn "me" (fun _ => Option.none))
        [PSEvent.recv (introduceTag, PyVal.str "peer"), PSEvent.fail,
         PSEvent.runTask]).opposite = some (PyVal.str "peer") :=
  ⟨rfl, rfl⟩

/-- C5 amended: every disconnect or I/O-failure path of the receive loop
runs the one common cleanup that clears the connection and the peer name
together under the instance lock; the claimed invariant itself is
nevertheless violable, because the introduce handler assigns the peer
name from its spawned thread without the lock and may run after the
cleanup. -/
theorem C5_cleanup (name : String) (s : PSState) (hs : s.sock = true) :
    (psStep name s PSEvent.fail).sock = false ∧
    (psStep name s PSEvent.fail).opposite = Option.none := by
  constructor <;> simp [psStep, hs]

/-- Witness for C5: the cleanup applied to a fresh connection. -/
theorem C5_witness :
    (initConn "me" (fun _ => Option.none)).sock = true ∧
    (psStep "me" (initConn "me" (fun _ => Option.none)) PSEvent.fail).opposite
      = Option.none :=
  ⟨rfl, (C5_cleanup "me" (initConn "me" (fun _ => Option.none)) rfl).2⟩

/-- C6 counterexample: from a fresh client, one `start` call followed by
a successful connect leaves the socket connected (`_socket` set) but the
handshake not yet completed (`_opposite_name` still None); a second
`start` call in that state passes the guard, mutates `__connecting`
(not a no-op) and spawns a second connection attempt. -/
theorem C6_counterexample :
    (clientConnected (clientStart initClient).1).sock = true ∧
    (clientConnected (clientStart initClient).1).opposite = Option.none ∧
    (clientStart (clientConnected (clientStart initClient).1)).2 = true ∧
    (clientStart (clientConnected (clientStart initClient).1)).1.connecting = true :=
  ⟨rfl, rfl, rfl, rfl⟩

/-- C6 amended: a second `start` is a no-op while the client is still
connecting or after the handshake has completed (`get_opposite`
non-None), and a second `PairServerSocket.start` after the first is
always a no-op; but in the window where the client's connection is
established and the handshake has not completed, a second `start`
spawns another connection attempt. -/
theorem C6_start_idempotent :
    (∀ s : ClientState, (s.connecting || s.opposite.isSome) = true →
        clientStart s = (s, false)) ∧
    serverStart true = (true, false) ∧
    (clientStart (clientConnected (clientStart initClient).1)).2 = true := by
  refine ⟨?_, rfl, rfl⟩
  intro s h
  simp [clientStart, h]

/-- Witness for C6: a client that is currently connecting ignores a
second `start` call. -/
theorem C6_witness :
    (({ connecting := true, sock := false, opposite := Option.none } : ClientState).connecting
      || ({ connecting := true, sock := false, opposite := Option.none }
            : ClientState).opposite.isSome) = true ∧
    clientStart { connecting := true, sock := false, opposite := Option.none }
      = ({ connecting := true, sock := false, opposite := Option.none }, false) :=
  ⟨rfl, C6_start_idempotent.1
    { connecting := true, sock := false, opposite := Option.none } rfl⟩

/-- C1 counterexample: a `request` whose send succeeded and whose
connection then fails while waiting (so the receive loop dies and the
expected response is never stored) does not return a disconnection
signal: the poll loop runs forever, never returning any value, because
its body reads only the response table. -/
theorem C1_counterexample :
    ¬ ∃ (fuel : Nat) (r : Option Msg),
        request true (fun _ => Option.none) fuel = some r := by
  rintro ⟨fuel, r, h⟩
  rw [request, if_pos rfl,
      requestPoll_of_none (fun _ => Option.none) (fun _ => rfl) fuel 0] at h
  simp at h

/-- C1 amended: `request` returns None when the connection is absent at
the time of the call or the initial send fails (the exception is caught
and None returned); after a successful send the call returns exactly
when a response tagged `response_type` appears in the table; if the
connection fails while waiting and the expected response never arrives,
the call never returns at all. -/
theorem C1_request_disconnect :
    (∀ (tbl : Nat → Option Msg) (fuel : Nat),
        request false tbl fuel = some Option.none) ∧
    (∀ (tbl : Nat → Option Msg) (n : Nat) (m : Msg),
        (∀ j, j < n → tbl j = Option.none) → tbl n = some m →
        request true tbl (n + 1) = some (some m)) ∧
    (∀ tbl : Nat → Option Msg, (∀ k, tbl k = Option.none) →
        ∀ fuel, request true tbl fuel = Option.none) := by
  refine ⟨?_, ?_, ?_⟩
  · intro tbl fuel
    rfl
  · intro tbl n m hnone hm
    have h := requestPoll_finds tbl n 0 m
      (fun j h1 h2 => hnone j (by omega)) (by simpa using hm)
    simp [request, h]
  · intro tbl h fuel
    simp [request, requestPoll_of_none tbl h fuel 0]

/-- Witness for C1: an absent connection returns None at once; a response
stored at the third poll is returned. -/
theorem C1_witness :
    request false (fun _ => Option.none) 3 = some Option.none ∧
    (∀ j, j < 2 →
        (fun k => if k = 2 then some (((5 : Int), PyVal.int 7) : Msg)
          else Option.none) j = Option.none) ∧
    request true
        (fun k => if k = 2 then some (((5 : Int), PyVal.int 7) : Msg) else Option.none) 3
      = some (some ((5 : Int), PyVal.int 7)) :=
  ⟨C1_request_disconnect.1 (fun _ => Option.none) 3,
   fun j hj => by interval_cases j <;> rfl,
   C1_request_disconnect.2.1
     (fun k => if k = 2 then some (((5 : Int), PyVal.int 7) : Msg) else Option.none) 2
     ((5 : Int), PyVal.int 7) (fun j hj => by interval_cases j <;> rfl) rfl⟩

/-- C3: for every representable message `m = (tag, body)`, decoding the
encoding of `m` yields `m` back: `loads (dumps m) = some m`. -/
theorem C3_roundtrip (m : Msg) : loads (dumps m) = some m := by
  obtain ⟨t, b⟩ := m
  have h := (decVal_encVal (encVal (PyVal.tuple [PyVal.int t, b])).length).1
      (PyVal.tuple [PyVal.int t, b]) [] (Nat.le_refl _)
  rw [List.append_nil] at h
  show loads (encVal (PyVal.tuple [PyVal.int t, b])) = some (t, b)
  unfold loads
  rw [h]
